import Mathlib

/-!
Shallow embedding of the skewer SKU accessor (src/sku.go) and catalog
adapter (src/wrap.go), together with proofs about the claims of the
specification.

Modelling conventions:
  - Go pointer fields (`*string`, `*[]T`, `*struct`) become `Option _`;
    Go slices become `List _`.
  - Go `int64` becomes `Int`, with the explicit 64-bit range check carried
    out by the base-10 parser, mirroring `strconv.ParseInt(s, 10, 64)`.
  - A Go runtime panic (nil-pointer dereference) is modelled by an explicit
    result constructor (`none` for `Option Bool` results, `.panics` for the
    zones scan): the embedded function marks exactly the executions in which
    the source dereferences a nil pointer.
  - Go `map[string]bool` used as a set of keys becomes `Finset String`;
    a nil map is distinguished from an empty one by a dedicated constructor.
-/

namespace Skewer

/-- Restriction kind enum of the provider schema; the source compares
against `compute.Location`, the only other kind is the zone-level one. -/
inductive ResourceSkuRestrictionsType
  | location
  | zone
deriving DecidableEq, Repr

/-- One capability entry (`ResourceSkuCapabilities`): pointer fields
`Name` and `Value`. -/
structure ResourceSkuCapabilities where
  name : Option String
  value : Option String
deriving DecidableEq, Repr

/-- Per-zone capability override record (`ResourceSkuZoneDetails`). -/
structure ResourceSkuZoneDetails where
  name : Option (List String)
  capabilities : Option (List ResourceSkuCapabilities)
deriving DecidableEq, Repr

/-- Per-location record (`ResourceSkuLocationInfo`): pointer fields
`Location`, `Zones`, `ZoneDetails`. -/
structure ResourceSkuLocationInfo where
  location : Option String
  zones : Option (List String)
  zoneDetails : Option (List ResourceSkuZoneDetails)
deriving DecidableEq, Repr

/-- Detail payload of a restriction (`ResourceSkuRestrictionInfo`). -/
structure ResourceSkuRestrictionInfo where
  locations : Option (List String)
  zones : Option (List String)
deriving DecidableEq, Repr

/-- One restriction record (`ResourceSkuRestrictions`): the `Type` field is a
plain enum value, `Values` is a pointer to a slice, `RestrictionInfo` is a
pointer to a struct. -/
structure ResourceSkuRestrictions where
  type : ResourceSkuRestrictionsType
  values : Option (List String)
  restrictionInfo : Option ResourceSkuRestrictionInfo
deriving DecidableEq, Repr

/-- A wrapped SKU record. The source declares `type SKU compute.ResourceSku`,
so the wrapped type shares the raw record's shape; only the fields the
accessor reads are modelled. -/
structure SKU where
  name : Option String
  resourceType : Option String
  locations : Option (List String)
  locationInfo : Option (List ResourceSkuLocationInfo)
  capabilities : Option (List ResourceSkuCapabilities)
  restrictions : Option (List ResourceSkuRestrictions)
deriving DecidableEq, Repr

/-- Raw provider record. In Go, `SKU` is a defined type over
`compute.ResourceSku` with the identical underlying shape, so the raw record
type is the same structure under another name. -/
abbrev ResourceSku := SKU

/-- Modelled from the spec: the helper `stringEqualsWithNormalization` is
called throughout `src/sku.go` but the repository file defining it is not
among the sources. The spec pins the rule down: two strings match when they
are equal after lower-casing and stripping separator punctuation
(underscores, hyphens, spaces). `normalizeString` performs that
lower-casing and stripping. -/
def normalizeString (s : String) : String :=
  String.mk ((s.data.filter (fun c => !(c == '_' || c == '-' || c == ' '))).map Char.toLower)

/-- Modelled from the spec: normalized string comparison, see
`normalizeString`. -/
def stringEqualsWithNormalization (a b : String) : Bool :=
  normalizeString a == normalizeString b

/-- Base-10 signed integer parsing after `strconv.ParseInt(s, 10, 64)`:
an optional sign, then one or more ASCII digits, and the result must fit
in a signed 64-bit integer; anything else is a parse failure (`none`). -/
def parseInt64 (s : String) : Option Int :=
  let signSplit : Bool × List Char :=
    match s.data with
    | '-' :: rest => (true, rest)
    | '+' :: rest => (false, rest)
    | l => (false, l)
  match signSplit with
  | (neg, digits) =>
    if digits.isEmpty then none
    else if digits.all Char.isDigit then
      let mag : Nat := digits.foldl (fun acc c => acc * 10 + (c.toNat - 48)) 0
      let v : Int := if neg then -(mag : Int) else (mag : Int)
      if -(2 ^ 63) ≤ v ∧ v ≤ 2 ^ 63 - 1 then some v else none
    else none

/-- Error values of the capability getters, after `ErrCapabilityNotFound`,
`ErrCapabilityValueNil` and `ErrCapabilityValueParse`; the parse error
carries the capability name and the offending value string. -/
inductive CapabilityError
  | notFound (capability : String)
  | valueNil (capability : String)
  | parseError (capability value : String)
deriving DecidableEq, Repr

/-- Loop body of `GetCapabilityIntegerQuantity`: the source compares
`capability.Name != nil && *capability.Name == name`, an exact (non
normalized) string comparison, and returns from inside the first match. -/
def getCapabilityIntegerQuantityAux (name : String) :
    List ResourceSkuCapabilities → Int × Option CapabilityError
  | [] => (-1, some (.notFound name))
  | c :: rest =>
    if c.name == some name then
      match c.value with
      | some v =>
        match parseInt64 v with
        | some intVal => (intVal, none)
        | none => (-1, some (.parseError name v))
      | none => (-1, some (.valueNil name))
    else getCapabilityIntegerQuantityAux name rest

/-- Embeds `(*SKU).GetCapabilityIntegerQuantity` from src/sku.go. -/
def GetCapabilityIntegerQuantity (s : SKU) (name : String) :
    Int × Option CapabilityError :=
  match s.capabilities with
  | none => (-1, some (.notFound name))
  | some caps => getCapabilityIntegerQuantityAux name caps

/-- Loop body of `GetCapabilityFloatQuantity`. The floating point parser
`strconv.ParseFloat` is abstracted as the parameter `parseFloat` (IEEE
floating point text parsing is outside the embedding); everything else
mirrors the source, including the exact name comparison and the `-1`
error result represented by `neg1`. -/
def getCapabilityFloatQuantityAux {A : Type} (parseFloat : String → Option A)
    (neg1 : A) (name : String) :
    List ResourceSkuCapabilities → A × Option CapabilityError
  | [] => (neg1, some (.notFound name))
  | c :: rest =>
    if c.name == some name then
      match c.value with
      | some v =>
        match parseFloat v with
        | some floatVal => (floatVal, none)
        | none => (neg1, some (.parseError name v))
      | none => (neg1, some (.valueNil name))
    else getCapabilityFloatQuantityAux parseFloat neg1 name rest

/-- Embeds `(*SKU).GetCapabilityFloatQuantity` from src/sku.go, with the
float parser as a parameter (see `getCapabilityFloatQuantityAux`). -/
def GetCapabilityFloatQuantity {A : Type} (parseFloat : String → Option A)
    (neg1 : A) (s : SKU) (name : String) : A × Option CapabilityError :=
  match s.capabilities with
  | none => (neg1, some (.notFound name))
  | some caps => getCapabilityFloatQuantityAux parseFloat neg1 name caps

/-- Name predicate used by the normalized-matching accessors: the source
writes `capability.Name != nil && stringEqualsWithNormalization(*capability.Name, name)`. -/
def capabilityNameMatches (c : ResourceSkuCapabilities) (name : String) : Bool :=
  match c.name with
  | some n => stringEqualsWithNormalization n name
  | none => false

/-- Claim reading of the integer getter, written from the claim's words:
the first capability whose name matches the requested name under
case/format normalization decides the result; absent collection or no
match is `notFound`, an absent value is `valueNil`, an unparseable value
is `parseError` carrying the offending string, success is the parsed
integer, and every error result carries quantity `-1`. -/
def getCapabilityIntegerQuantityClaim (s : SKU) (name : String) :
    Int × Option CapabilityError :=
  match s.capabilities with
  | none => (-1, some (.notFound name))
  | some caps =>
    match caps.find? (fun c => capabilityNameMatches c name) with
    | none => (-1, some (.notFound name))
    | some c =>
      match c.value with
      | none => (-1, some (.valueNil name))
      | some v =>
        match parseInt64 v with
        | none => (-1, some (.parseError name v))
        | some intVal => (intVal, none)

/-- Amended reading of the integer getter: identical to
`getCapabilityIntegerQuantityClaim` except that the name comparison is
exact (case-sensitive) string equality, which is what the source does. -/
def getCapabilityIntegerQuantitySpec (s : SKU) (name : String) :
    Int × Option CapabilityError :=
  match s.capabilities with
  | none => (-1, some (.notFound name))
  | some caps =>
    match caps.find? (fun c => c.name == some name) with
    | none => (-1, some (.notFound name))
    | some c =>
      match c.value with
      | none => (-1, some (.valueNil name))
      | some v =>
        match parseInt64 v with
        | none => (-1, some (.parseError name v))
        | some intVal => (intVal, none)

/-- Amended reading of the float getter, parameterized by the same abstract
float parser as the embedding; exact name comparison, same error taxonomy,
`neg1` on every error path. -/
def getCapabilityFloatQuantitySpec {A : Type} (parseFloat : String → Option A)
    (neg1 : A) (s : SKU) (name : String) : A × Option CapabilityError :=
  match s.capabilities with
  | none => (neg1, some (.notFound name))
  | some caps =>
    match caps.find? (fun c => c.name == some name) with
    | none => (neg1, some (.notFound name))
    | some c =>
      match c.value with
      | none => (neg1, some (.valueNil name))
      | some v =>
        match parseFloat v with
        | none => (neg1, some (.parseError name v))
        | some floatVal => (floatVal, none)

/-- SKU with one capability whose name matches `vCPUs` under normalization
but not under exact comparison. -/
def skuCaseC1 : SKU :=
  { name := none, resourceType := none, locations := none,
    locationInfo := none,
    capabilities := some [{ name := some "v_CPUs", value := some "8" }],
    restrictions := none }

/-- Loop body of `HasCapability`: at the first capability whose name matches
under normalization, the source returns
`capability.Value != nil && stringEqualsWithNormalization(*capability.Value, "True")`. -/
def hasCapabilityAux (name : String) : List ResourceSkuCapabilities → Bool
  | [] => false
  | c :: rest =>
    if capabilityNameMatches c name then
      match c.value with
      | some v => stringEqualsWithNormalization v "True"
      | none => false
    else hasCapabilityAux name rest

/-- Embeds `(*SKU).HasCapability` from src/sku.go. -/
def HasCapability (s : SKU) (name : String) : Bool :=
  match s.capabilities with
  | none => false
  | some caps => hasCapabilityAux name caps

/-- Claim reading of `HasCapability`, written from the claim's words: the
decision is made by the first capability whose name matches under
normalization; it is true exactly when that capability's value is present
and normalized-matches the literal True token; an absent collection,
absent name, or mismatched value yields false. -/
def hasCapabilitySpec (s : SKU) (name : String) : Bool :=
  match s.capabilities with
  | none => false
  | some caps =>
    match caps.find? (fun c => capabilityNameMatches c name) with
    | none => false
    | some c =>
      match c.value with
      | none => false
      | some v => stringEqualsWithNormalization v "True"

/-- Error of `HasCapabilityWithCapacity`: the source wraps the
`strconv.ParseInt` failure with the offending value string. -/
inductive CapacityError
  | parseFailure (value : String)
deriving DecidableEq, Repr

/-- Loop body of `HasCapabilityWithCapacity`: at the first capability whose
name matches under normalization, a present value is parsed; a parse
failure returns the wrapped error, a parsed value is compared against the
threshold, and an absent value falls through to `(false, nil)`. -/
def hasCapabilityWithCapacityAux (name : String) (value : Int) :
    List ResourceSkuCapabilities → Bool × Option CapacityError
  | [] => (false, none)
  | c :: rest =>
    if capabilityNameMatches c name then
      match c.value with
      | some v =>
        match parseInt64 v with
        | none => (false, some (.parseFailure v))
        | some intVal => if intVal ≥ value then (true, none) else (false, none)
      | none => (false, none)
    else hasCapabilityWithCapacityAux name value rest

/-- Embeds `(*SKU).HasCapabilityWithCapacity` from src/sku.go. -/
def HasCapabilityWithCapacity (s : SKU) (name : String) (value : Int) :
    Bool × Option CapacityError :=
  match s.capabilities with
  | none => (false, none)
  | some caps => hasCapabilityWithCapacityAux name value caps

/-- Claim reading of `HasCapabilityWithCapacity`, written from the claim's
words: `(true, nil)` exactly when the first capability with
normalized-matching name has a value parsing as an integer at least the
threshold; a parseable value below the threshold is `(false, nil)`; a
non-parseable value is `(false, error)`; an absent collection or absent
name is `(false, nil)`. -/
def hasCapabilityWithCapacitySpec (s : SKU) (name : String) (value : Int) :
    Bool × Option CapacityError :=
  match s.capabilities with
  | none => (false, none)
  | some caps =>
    match caps.find? (fun c => capabilityNameMatches c name) with
    | none => (false, none)
    | some c =>
      match c.value with
      | none => (false, none)
      | some v =>
        match parseInt64 v with
        | none => (false, some (.parseFailure v))
        | some intVal => (decide (intVal ≥ value), none)

/-- Location predicate of the claim wording: a location-info entry matches
when its location is present and normalized-matches the query. -/
def locationInfoMatches (li : ResourceSkuLocationInfo) (location : String) : Bool :=
  match li.location with
  | some l => stringEqualsWithNormalization l location
  | none => false

/-- Loop body of `IsAvailable`. The source dereferences
`*locationInfo.Location` without a nil check, so an entry with an absent
location is a panic (`none`); at the first normalized match the source
scans the restrictions and returns false as soon as any restriction of
kind location exists, true otherwise. -/
def isAvailableAux (restrictions : Option (List ResourceSkuRestrictions))
    (location : String) : List ResourceSkuLocationInfo → Option Bool
  | [] => some false
  | li :: rest =>
    match li.location with
    | none => none
    | some l =>
      if stringEqualsWithNormalization l location then
        some (match restrictions with
          | none => true
          | some rs => !(rs.any (fun r => r.type == .location)))
      else isAvailableAux restrictions location rest

/-- Embeds `(*SKU).IsAvailable` from src/sku.go; `none` marks the executions
in which the source panics on a nil location pointer. -/
def IsAvailable (s : SKU) (location : String) : Option Bool :=
  match s.locationInfo with
  | none => some false
  | some lis => isAvailableAux s.restrictions location lis

/-- Claim reading of `IsAvailable`, written from the claim's words: true
exactly when some location-info entry normalized-matches the location and
the SKU carries no restriction record of kind location at all. -/
def isAvailableClaim (s : SKU) (location : String) : Bool :=
  (match s.locationInfo with
    | none => false
    | some lis => lis.any (fun li => locationInfoMatches li location)) &&
  (match s.restrictions with
    | none => true
    | some rs => !(rs.any (fun r => r.type == .location)))

/-- Embeds `(*SKU).GetResourceType` from src/sku.go. -/
def GetResourceType (s : SKU) : String :=
  match s.resourceType with
  | none => ""
  | some t => t

/-- Embeds `(*SKU).GetName` from src/sku.go. -/
def GetName (s : SKU) : String :=
  match s.name with
  | none => ""
  | some n => n

/-- Error values of `GetLocation`, after the three `fmt.Errorf` messages
`ErrSKULocationNil`, `ErrNoSKULocations`, `ErrMultipleSKULocations`. -/
inductive LocationError
  | skuLocationNil
  | noSKULocations
  | multipleSKULocations
deriving DecidableEq, Repr

/-- Embeds `(*SKU).GetLocation` from src/sku.go: a nil collection, a length
below one and a length above one each return their own error with the
empty string; exactly one entry returns that entry with no error. -/
def GetLocation (s : SKU) : String × Option LocationError :=
  match s.locations with
  | none => ("", some .skuLocationNil)
  | some [] => ("", some .noSKULocations)
  | some [l] => (l, none)
  | some (_ :: _ :: _) => ("", some .multipleSKULocations)

/-- Embeds `(*SKU).Equal` from src/sku.go. The source resolves both
compared locations from the receiver `s` (`otherLocation, otherErr :=
s.GetLocation()`, not `other.GetLocation()`) and requires both resolution
errors to be non-nil. -/
def Equal (s other : SKU) : Bool :=
  let location := (GetLocation s).1
  let localErr := (GetLocation s).2
  let otherLocation := (GetLocation s).1
  let otherErr := (GetLocation s).2
  stringEqualsWithNormalization (GetResourceType s) (GetResourceType other) &&
  stringEqualsWithNormalization (GetName s) (GetName other) &&
  stringEqualsWithNormalization location otherLocation &&
  (localErr != none) && (otherErr != none)

/-- Embeds `Wrap` from src/wrap.go: each raw record is converted by the Go
type conversion `SKU(value)`, which is the identity on the underlying
record. -/
def Wrap (input : List ResourceSku) : List SKU :=
  input.map (fun value => value)

/-- Outcome of the inner restriction scan of `AvailabilityZones`:
a nil-pointer panic, an early `return nil`, or the accumulated set of
restricted zones. -/
inductive RestrictionScan
  | panics
  | nilReturn
  | cont (restricted : Finset String)
deriving DecidableEq

/-- Outcome of the outer location scan of `AvailabilityZones`. -/
inductive LocationScan
  | panics
  | nilReturn
  | done (available restricted : Finset String)
deriving DecidableEq

/-- Result of `AvailabilityZones`: the source returns a `map[string]bool`,
which is nil after the early `return nil` and a (possibly empty) key set
otherwise; `.panics` marks a nil-pointer dereference. -/
inductive ZonesResult
  | panics
  | nilMap
  | zones (available : Finset String)
deriving DecidableEq

/-- Candidate loop of `AvailabilityZones` over one restriction's values:
at a normalized match the source first returns nil for a location-kind
restriction and otherwise reads `restriction.RestrictionInfo.Zones`,
panicking when `RestrictionInfo` is nil and accumulating the zones when
present. -/
def azScanValues (location : String) (r : ResourceSkuRestrictions)
    (restricted : Finset String) : List String → RestrictionScan
  | [] => .cont restricted
  | candidate :: rest =>
    if stringEqualsWithNormalization candidate location then
      if r.type == .location then .nilReturn
      else
        match r.restrictionInfo with
        | none => .panics
        | some info =>
          match info.zones with
          | none => azScanValues location r restricted rest
          | some zs => azScanValues location r (restricted ∪ zs.toFinset) rest
    else azScanValues location r restricted rest

/-- Restriction loop of `AvailabilityZones`: restrictions with a nil
`Values` slice are skipped; otherwise the candidate loop runs and an early
outcome propagates. -/
def azScanRestrictions (location : String) (restricted : Finset String) :
    List ResourceSkuRestrictions → RestrictionScan
  | [] => .cont restricted
  | r :: rest =>
    match r.values with
    | none => azScanRestrictions location restricted rest
    | some vs =>
      match azScanValues location r restricted vs with
      | .cont restricted2 => azScanRestrictions location restricted2 rest
      | .nilReturn => .nilReturn
      | .panics => .panics

/-- Location loop of `AvailabilityZones`: every entry's location pointer is
dereferenced (nil is a panic); at a normalized match the entry's zones
pointer is dereferenced (nil is a panic), the zones are accumulated, and
the whole restriction list is scanned when it is present. -/
def azScanLocations (restrictions : Option (List ResourceSkuRestrictions))
    (location : String) (available restricted : Finset String) :
    List ResourceSkuLocationInfo → LocationScan
  | [] => .done available restricted
  | li :: rest =>
    match li.location with
    | none => .panics
    | some l =>
      if stringEqualsWithNormalization l location then
        match li.zones with
        | none => .panics
        | some zs =>
          match restrictions with
          | none =>
            azScanLocations restrictions location (available ∪ zs.toFinset)
              restricted rest
          | some rs =>
            match azScanRestrictions location restricted rs with
            | .cont restricted2 =>
              azScanLocations restrictions location (available ∪ zs.toFinset)
                restricted2 rest
            | .nilReturn => .nilReturn
            | .panics => .panics
      else azScanLocations restrictions location available restricted rest

/-- Embeds `(*SKU).AvailabilityZones` from src/sku.go. The source iterates
`*s.LocationInfo` without a nil check, so an absent collection is a panic;
after the scan the restricted zones are deleted from the available ones. -/
def AvailabilityZones (s : SKU) (location : String) : ZonesResult :=
  match s.locationInfo with
  | none => .panics
  | some lis =>
    match azScanLocations s.restrictions location ∅ ∅ lis with
    | .panics => .panics
    | .nilReturn => .nilMap
    | .done available restricted => .zones (available \ restricted)

/-- Value predicate of the claim wording: a restriction applies to a
location when its values list contains a normalized match for it. -/
def restrictionValuesMatch (r : ResourceSkuRestrictions) (location : String) : Bool :=
  (r.values.getD []).any (fun c => stringEqualsWithNormalization c location)

/-- Zones listed under the location-info entries whose location
normalized-matches the query, as a set. -/
def zonesForLocation (location : String)
    (lis : List ResourceSkuLocationInfo) : Finset String :=
  lis.foldr
    (fun li acc =>
      if locationInfoMatches li location then (li.zones.getD []).toFinset ∪ acc
      else acc) ∅

/-- Zones named by zone-kind restrictions whose values contain the query
location, as a set. -/
def restrictedZonesForLocation (location : String)
    (rs : List ResourceSkuRestrictions) : Finset String :=
  rs.foldr
    (fun r acc =>
      if r.type == .zone && restrictionValuesMatch r location then
        ((r.restrictionInfo.bind (fun info => info.zones)).getD []).toFinset ∪ acc
      else acc) ∅

/-- Claim reading of `AvailabilityZones`, written from the claim's words:
if any restriction of kind location lists the queried location among its
values the result is the nil map; otherwise the result is the set of zones
of the matching location-info entries minus every zone named by a
zone-kind restriction that lists the location. -/
def availabilityZonesClaim (s : SKU) (location : String) : ZonesResult :=
  if (s.restrictions.getD []).any
      (fun r => r.type == .location && restrictionValuesMatch r location) then
    .nilMap
  else
    .zones (zonesForLocation location (s.locationInfo.getD []) \
      restrictedZonesForLocation location (s.restrictions.getD []))

/-- Amended reading of `AvailabilityZones`: a matching location-kind
restriction only forces the nil map when some location-info entry also
normalized-matches the queried location, because the source scans
restrictions only from inside a matching entry; otherwise the result is
the zone set of the matching entries minus the zone-restricted ones. -/
def availabilityZonesAmended (s : SKU) (location : String) : ZonesResult :=
  if (s.locationInfo.getD []).any (fun li => locationInfoMatches li location) &&
     (s.restrictions.getD []).any
       (fun r => r.type == .location && restrictionValuesMatch r location) then
    .nilMap
  else
    .zones (zonesForLocation location (s.locationInfo.getD []) \
      restrictedZonesForLocation location (s.restrictions.getD []))

/-- SKU with every optional field absent. -/
def skuAllAbsent : SKU :=
  { name := none, resourceType := none, locations := none,
    locationInfo := none, capabilities := none, restrictions := none }

/-- SKU whose first location-info entry has an absent location pointer and
whose second entry matches eastus. -/
def skuCaseC4 : SKU :=
  { name := none, resourceType := none, locations := none,
    locationInfo := some
      [{ location := none, zones := none, zoneDetails := none },
       { location := some "eastus", zones := some [], zoneDetails := none }],
    capabilities := none, restrictions := none }

/-- SKU declaring eastus in its location info, restricted at the whole
location westus. -/
def skuCaseC5 : SKU :=
  { name := none, resourceType := none, locations := none,
    locationInfo := some
      [{ location := some "eastus", zones := some ["1"], zoneDetails := none }],
    capabilities := none,
    restrictions := some
      [{ type := .location, values := some ["westus"],
         restrictionInfo := none }] }

/-- SKU declaring East US with zones 1, 2 and 3, a zone-kind restriction on
zone 3 for eastus, and a location-kind restriction naming westus. -/
def skuWitnessC5 : SKU :=
  { name := none, resourceType := none, locations := none,
    locationInfo := some
      [{ location := some "East US", zones := some ["1", "2", "3"],
         zoneDetails := none }],
    capabilities := none,
    restrictions := some
      [{ type := .zone, values := some ["eastus"],
         restrictionInfo := some { locations := none, zones := some ["3"] } },
       { type := .location, values := some ["westus"],
         restrictionInfo := none }] }

/-- SKU declaring East US in its location info, with no restrictions. -/
def skuWitnessC4 : SKU :=
  { name := none, resourceType := none, locations := none,
    locationInfo := some
      [{ location := some "East US", zones := some [], zoneDetails := none }],
    capabilities := none, restrictions := none }

/-- SKU with an empty locations collection. -/
def skuLocationsEmpty : SKU :=
  { skuAllAbsent with locations := some [] }

/-- SKU with exactly one location. -/
def skuLocationsOne : SKU :=
  { skuAllAbsent with locations := some ["eastus"] }

/-- SKU with two locations. -/
def skuLocationsTwo : SKU :=
  { skuAllAbsent with locations := some ["eastus", "westus"] }

/-- SKU with a name and a resource type present. -/
def skuNamed : SKU :=
  { skuAllAbsent with name := some "Standard_D8s_v3",
                      resourceType := some "virtualMachines" }

theorem getCapabilityIntegerQuantityAux_eq_find (name : String)
    (caps : List ResourceSkuCapabilities) :
    getCapabilityIntegerQuantityAux name caps =
      match caps.find? (fun c => c.name == some name) with
      | none => (-1, some (.notFound name))
      | some c =>
        match c.value with
        | none => (-1, some (.valueNil name))
        | some v =>
          match parseInt64 v with
          | none => (-1, some (.parseError name v))
          | some intVal => (intVal, none) := by
  induction caps with
  | nil => rfl
  | cons c rest ih =>
    by_cases h : (c.name == some name) = true
    · simp only [List.find?_cons, h, getCapabilityIntegerQuantityAux, if_true]
      cases hv : c.value with
      | none => simp only [hv]
      | some v =>
        simp only [hv]
        cases hp : parseInt64 v with
        | none => simp only [hp]
        | some intVal => simp only [hp]
    · rw [Bool.not_eq_true] at h
      simp only [List.find?_cons, h, getCapabilityIntegerQuantityAux,
        Bool.false_eq_true, if_false, ih]

theorem getCapabilityFloatQuantityAux_eq_find {A : Type}
    (parseFloat : String → Option A) (neg1 : A) (name : String)
    (caps : List ResourceSkuCapabilities) :
    getCapabilityFloatQuantityAux parseFloat neg1 name caps =
      match caps.find? (fun c => c.name == some name) with
      | none => (neg1, some (.notFound name))
      | some c =>
        match c.value with
        | none => (neg1, some (.valueNil name))
        | some v =>
          match parseFloat v with
          | none => (neg1, some (.parseError name v))
          | some floatVal => (floatVal, none) := by
  induction caps with
  | nil => rfl
  | cons c rest ih =>
    by_cases h : (c.name == some name) = true
    · simp only [List.find?_cons, h, getCapabilityFloatQuantityAux, if_true]
      cases hv : c.value with
      | none => simp only [hv]
      | some v =>
        simp only [hv]
        cases hp : parseFloat v with
        | none => simp only [hp]
        | some floatVal => simp only [hp]
    · rw [Bool.not_eq_true] at h
      simp only [List.find?_cons, h, getCapabilityFloatQuantityAux,
        Bool.false_eq_true, if_false, ih]

/-- C1, counterexample: the claim requires the name lookup of the numeric
capability getters to be normalized, but the source compares names exactly;
on a capability named v_CPUs, which normalized-matches vCPUs and carries the
parseable value 8, the claim reading returns the parsed 8 while the source
returns CapabilityNotFound. -/
theorem c1_counterexample_normalized_match :
    getCapabilityIntegerQuantityClaim skuCaseC1 "vCPUs" = (8, none) ∧
    GetCapabilityIntegerQuantity skuCaseC1 "vCPUs" =
      (-1, some (.notFound "vCPUs")) ∧
    stringEqualsWithNormalization "v_CPUs" "vCPUs" = true := by
  decide

/-- C1, amended: GetCapabilityIntegerQuantity (and identically
GetCapabilityFloatQuantity, for any float parser) scans the capabilities
list for the first entry whose name equals the requested name exactly
(case-sensitively, not under normalization); an absent collection or no
match is CapabilityNotFound, a matched entry with an absent value is
CapabilityValueNil, an unparseable value is CapabilityValueParseError
carrying the offending string, success returns the parsed number with no
error, and every error path returns quantity -1. -/
theorem c1_numeric_getters_exact_match (s : SKU) (name : String) :
    GetCapabilityIntegerQuantity s name =
      getCapabilityIntegerQuantitySpec s name ∧
    ∀ (A : Type) (parseFloat : String → Option A) (neg1 : A),
      GetCapabilityFloatQuantity parseFloat neg1 s name =
        getCapabilityFloatQuantitySpec parseFloat neg1 s name := by
  constructor
  · unfold GetCapabilityIntegerQuantity getCapabilityIntegerQuantitySpec
    cases s.capabilities with
    | none => rfl
    | some caps => exact getCapabilityIntegerQuantityAux_eq_find name caps
  · intro A parseFloat neg1
    unfold GetCapabilityFloatQuantity getCapabilityFloatQuantitySpec
    cases s.capabilities with
    | none => rfl
    | some caps => exact getCapabilityFloatQuantityAux_eq_find parseFloat neg1 name caps

/-- C2: the claim promises that no operation panics for any combination of
absent optional fields, but AvailabilityZones iterates the location-info
collection without a nil check and so dereferences a nil pointer on a SKU
with an absent location-info collection, and IsAvailable dereferences a
location-info entry's nil location pointer; both executions are the
modelled panic. -/
theorem c2_operations_panic_on_absent_fields :
    AvailabilityZones skuAllAbsent "eastus" = ZonesResult.panics ∧
    IsAvailable skuCaseC4 "eastus" = none := by
  decide

/-- C3: Equal returns true exactly when the resource types normalized-match,
the names normalized-match, the two compared locations normalized-match and
both location resolutions ended in an error, where both compared locations
and both resolution errors come from the first record's own GetLocation
(the second side is resolved from the same record as the first, not from
the other record). -/
theorem c3_equal_characterization (s other : SKU) :
    Equal s other = true ↔
      (stringEqualsWithNormalization (GetResourceType s) (GetResourceType other) = true ∧
       stringEqualsWithNormalization (GetName s) (GetName other) = true ∧
       stringEqualsWithNormalization (GetLocation s).1 (GetLocation s).1 = true ∧
       (GetLocation s).2 ≠ none ∧ (GetLocation s).2 ≠ none) := by
  simp [Equal, Bool.and_eq_true, bne_iff_ne, and_assoc]

/-- C3, witness: the characterization applied to concrete SKUs; the first
record's empty locations collection makes its own resolution error on both
sides of the comparison, so the two records compare equal. -/
theorem c3_equal_witness : Equal skuLocationsEmpty skuAllAbsent = true :=
  (c3_equal_characterization skuLocationsEmpty skuAllAbsent).mpr (by decide)

theorem isAvailableAux_eq (restrictions : Option (List ResourceSkuRestrictions))
    (location : String) (lis : List ResourceSkuLocationInfo)
    (h : lis.all (fun li => li.location.isSome) = true) :
    isAvailableAux restrictions location lis =
      some ((lis.any fun li => locationInfoMatches li location) &&
        (match restrictions with
          | none => true
          | some rs => !(rs.any fun r => r.type == .location))) := by
  induction lis with
  | nil => simp [isAvailableAux]
  | cons li rest ih =>
    simp only [List.all_cons, Bool.and_eq_true] at h
    obtain ⟨h1, h2⟩ := h
    obtain ⟨l, hl⟩ := Option.isSome_iff_exists.mp h1
    by_cases hm : stringEqualsWithNormalization l location = true
    · simp [isAvailableAux, hl, hm, locationInfoMatches]
    · rw [Bool.not_eq_true] at hm
      simp [isAvailableAux, hl, hm, locationInfoMatches, ih h2]

/-- C4, counterexample: the claim quantifies over every SKU, but IsAvailable
dereferences each scanned entry's location pointer without a nil check; on a
SKU whose first location-info entry has an absent location and whose second
entry matches the queried location with no restrictions present, the claim
requires true while the source panics instead of returning. -/
theorem c4_counterexample_nil_location_entry :
    isAvailableClaim skuCaseC4 "eastus" = true ∧
    IsAvailable skuCaseC4 "eastus" = none := by
  decide

/-- C4, amended: for every SKU whose location-info entries all carry a
location value, IsAvailable(location) returns true exactly when the
location-info list contains an entry whose location normalized-matches the
given location and the SKU carries no restriction record of kind location
at all; the restriction check is location-unconditional, so any
location-kind restriction disqualifies every location. -/
theorem c4_isAvailable_characterization (s : SKU) (location : String)
    (h : (s.locationInfo.getD []).all (fun li => li.location.isSome) = true) :
    IsAvailable s location = some (isAvailableClaim s location) := by
  cases hli : s.locationInfo with
  | none => simp [IsAvailable, isAvailableClaim, hli]
  | some lis =>
    rw [hli] at h
    simp only [Option.getD_some] at h
    simp only [IsAvailable, isAvailableClaim, hli]
    exact isAvailableAux_eq s.restrictions location lis h

/-- C4, witness: the amended characterization applied to a concrete SKU
declaring East US, queried at eastus. -/
theorem c4_isAvailable_witness : IsAvailable skuWitnessC4 "eastus" = some true :=
  (c4_isAvailable_characterization skuWitnessC4 "eastus" (by decide)).trans (by decide)

theorem hasCapabilityAux_eq_find (name : String)
    (caps : List ResourceSkuCapabilities) :
    hasCapabilityAux name caps =
      match caps.find? (fun c => capabilityNameMatches c name) with
      | none => false
      | some c =>
        match c.value with
        | none => false
        | some v => stringEqualsWithNormalization v "True" := by
  induction caps with
  | nil => rfl
  | cons c rest ih =>
    by_cases h : capabilityNameMatches c name = true
    · simp only [List.find?_cons, h, hasCapabilityAux, if_true]
      cases hv : c.value with
      | none => simp only [hv]
      | some v => simp only [hv]
    · rw [Bool.not_eq_true] at h
      simp only [List.find?_cons, h, hasCapabilityAux, Bool.false_eq_true,
        if_false, ih]

/-- C6: HasCapability agrees everywhere with the first-match reading of the
claim: the first capability whose name normalized-matches decides, true
exactly when its value is present and normalized-matches True (so any
case/separator variant such as true or TRUE qualifies and False does not),
and an absent collection, absent name, or mismatched value yields false;
the Bool result type has no error to return. -/
theorem c6_hasCapability_characterization (s : SKU) (name : String) :
    HasCapability s name = hasCapabilitySpec s name ∧
    stringEqualsWithNormalization "true" "True" = true ∧
    stringEqualsWithNormalization "TRUE" "True" = true ∧
    stringEqualsWithNormalization "False" "True" = false := by
  refine ⟨?_, by decide, by decide, by decide⟩
  unfold HasCapability hasCapabilitySpec
  cases s.capabilities with
  | none => rfl
  | some caps => exact hasCapabilityAux_eq_find name caps

theorem hasCapabilityWithCapacityAux_eq_find (name : String) (value : Int)
    (caps : List ResourceSkuCapabilities) :
    hasCapabilityWithCapacityAux name value caps =
      match caps.find? (fun c => capabilityNameMatches c name) with
      | none => (false, none)
      | some c =>
        match c.value with
        | none => (false, none)
        | some v =>
          match parseInt64 v with
          | none => (false, some (.parseFailure v))
          | some intVal => (decide (intVal ≥ value), none) := by
  induction caps with
  | nil => rfl
  | cons c rest ih =>
    by_cases h : capabilityNameMatches c name = true
    · simp only [List.find?_cons, h, hasCapabilityWithCapacityAux, if_true]
      cases hv : c.value with
      | none => simp only [hv]
      | some v =>
        simp only [hv]
        cases hp : parseInt64 v with
        | none => simp only [hp]
        | some intVal =>
          simp only [hp]
          by_cases hge : intVal ≥ value
          · simp [hge]
          · simp [hge]
    · rw [Bool.not_eq_true] at h
      simp only [List.find?_cons, h, hasCapabilityWithCapacityAux,
        Bool.false_eq_true, if_false, ih]

/-- C7: HasCapabilityWithCapacity agrees everywhere with the claim's
reading: `(true, nil)` exactly when the first capability whose name
normalized-matches has a value parsing as an integer at least the
threshold, a parseable value below the threshold is `(false, nil)`, a
non-parseable value is `(false, error)` carrying the offending string, and
an absent collection or absent capability name is `(false, nil)`, never an
error. -/
theorem c7_hasCapabilityWithCapacity_characterization (s : SKU)
    (name : String) (value : Int) :
    HasCapabilityWithCapacity s name value =
      hasCapabilityWithCapacitySpec s name value := by
  unfold HasCapabilityWithCapacity hasCapabilityWithCapacitySpec
  cases s.capabilities with
  | none => rfl
  | some caps => exact hasCapabilityWithCapacityAux_eq_find name value caps

/-- C8: GetLocation returns the sole entry with no error exactly when the
locations collection is present with exactly one entry; an absent
collection, an empty collection and a collection with more than one entry
each return their own distinct error value, and the operation is total. -/
theorem c8_getLocation_characterization (s : SKU) :
    (s.locations = none → GetLocation s = ("", some .skuLocationNil)) ∧
    (s.locations = some [] → GetLocation s = ("", some .noSKULocations)) ∧
    (∀ l, s.locations = some [l] → GetLocation s = (l, none)) ∧
    (∀ l l2 rest, s.locations = some (l :: l2 :: rest) →
       GetLocation s = ("", some .multipleSKULocations)) ∧
    ((GetLocation s).2 = none ↔ ∃ l, s.locations = some [l]) ∧
    (LocationError.skuLocationNil ≠ .noSKULocations ∧
     LocationError.skuLocationNil ≠ .multipleSKULocations ∧
     LocationError.noSKULocations ≠ .multipleSKULocations) := by
  refine ⟨?_, ?_, ?_, ?_, ?_, by decide, by decide, by decide⟩ <;>
    rcases s with ⟨n, rt, _ | ⟨_ | ⟨l1, _ | ⟨l2, ls⟩⟩⟩, li, cp, rs⟩ <;>
    simp [GetLocation]

/-- C8, witness: GetLocation evaluated through the characterization on four
concrete SKUs, one per shape of the locations collection. -/
theorem c8_getLocation_witness :
    GetLocation skuAllAbsent = ("", some .skuLocationNil) ∧
    GetLocation skuLocationsEmpty = ("", some .noSKULocations) ∧
    GetLocation skuLocationsOne = ("eastus", none) ∧
    GetLocation skuLocationsTwo = ("", some .multipleSKULocations) :=
  ⟨(c8_getLocation_characterization skuAllAbsent).1 rfl,
   (c8_getLocation_characterization skuLocationsEmpty).2.1 rfl,
   (c8_getLocation_characterization skuLocationsOne).2.2.1 "eastus" rfl,
   (c8_getLocation_characterization skuLocationsTwo).2.2.2.1 "eastus" "westus" [] rfl⟩

/-- C9: Wrap of N raw records yields exactly N wrapped records, and the
record at every index of the output is the record at the same index of the
input, unchanged: no filtering, validation or field adjustment happens. -/
theorem c9_wrap_preserves_order_and_count (input : List ResourceSku) :
    (Wrap input).length = input.length ∧
    ∀ i : Nat, (Wrap input).get? i = input.get? i := by
  constructor
  · simp [Wrap]
  · intro i
    simp [Wrap]

/-- C10: GetName and GetResourceType are total String-valued accessors:
a present underlying field is returned exactly and an absent one becomes
the empty string, with no error to return. -/
theorem c10_name_resourceType_total (s : SKU) :
    (s.name = none → GetName s = "") ∧
    (∀ v, s.name = some v → GetName s = v) ∧
    (s.resourceType = none → GetResourceType s = "") ∧
    (∀ v, s.resourceType = some v → GetResourceType s = v) := by
  refine ⟨?_, ?_, ?_, ?_⟩
  · intro h; simp [GetName, h]
  · intro v h; simp [GetName, h]
  · intro h; simp [GetResourceType, h]
  · intro v h; simp [GetResourceType, h]

/-- C10, witness: the characterization applied to a SKU with absent fields
and to one with both fields present. -/
theorem c10_name_resourceType_witness :
    GetName skuAllAbsent = "" ∧
    GetName skuNamed = "Standard_D8s_v3" ∧
    GetResourceType skuAllAbsent = "" ∧
    GetResourceType skuNamed = "virtualMachines" :=
  ⟨(c10_name_resourceType_total skuAllAbsent).1 rfl,
   (c10_name_resourceType_total skuNamed).2.1 "Standard_D8s_v3" rfl,
   (c10_name_resourceType_total skuAllAbsent).2.2.1 rfl,
   (c10_name_resourceType_total skuNamed).2.2.2 "virtualMachines" rfl⟩

theorem zonesForLocation_nil (location : String) :
    zonesForLocation location [] = ∅ := rfl

theorem zonesForLocation_cons (location : String)
    (li : ResourceSkuLocationInfo) (rest : List ResourceSkuLocationInfo) :
    zonesForLocation location (li :: rest) =
      if locationInfoMatches li location then
        (li.zones.getD []).toFinset ∪ zonesForLocation location rest
      else zonesForLocation location rest := rfl

theorem restrictedZonesForLocation_nil (location : String) :
    restrictedZonesForLocation location [] = ∅ := rfl

theorem restrictedZonesForLocation_cons (location : String)
    (r : ResourceSkuRestrictions) (rest : List ResourceSkuRestrictions) :
    restrictedZonesForLocation location (r :: rest) =
      if r.type == .zone && restrictionValuesMatch r location then
        ((r.restrictionInfo.bind fun info => info.zones).getD []).toFinset ∪
          restrictedZonesForLocation location rest
      else restrictedZonesForLocation location rest := rfl

theorem zonesForLocation_eq_empty (location : String)
    (lis : List ResourceSkuLocationInfo)
    (h : (lis.any fun li => locationInfoMatches li location) = false) :
    zonesForLocation location lis = ∅ := by
  induction lis with
  | nil => rfl
  | cons li rest ih =>
    simp only [List.any_cons, Bool.or_eq_false_iff] at h
    rw [zonesForLocation_cons, if_neg (by simp [h.1]), ih h.2]

theorem azScanValues_eq (location : String) (r : ResourceSkuRestrictions)
    (vs : List String) (restricted : Finset String)
    (hinfo : r.type = .location ∨ r.restrictionInfo.isSome = true) :
    azScanValues location r restricted vs =
      if vs.any (fun c => stringEqualsWithNormalization c location) then
        if r.type == .location then .nilReturn
        else .cont (restricted ∪
          ((r.restrictionInfo.bind fun info => info.zones).getD []).toFinset)
      else .cont restricted := by
  induction vs generalizing restricted with
  | nil => simp [azScanValues]
  | cons candidate rest ih =>
    by_cases hc : stringEqualsWithNormalization candidate location = true
    · by_cases ht : r.type = ResourceSkuRestrictionsType.location
      · simp [azScanValues, hc, ht]
      · have hbeq : (r.type == ResourceSkuRestrictionsType.location) = false := by
          cases hr : r.type <;> simp_all
        have hinfo2 : r.restrictionInfo.isSome = true := hinfo.resolve_left ht
        obtain ⟨info, hi⟩ := Option.isSome_iff_exists.mp hinfo2
        cases hz : info.zones with
        | none =>
          simp only [azScanValues, hc, if_true, hbeq, Bool.false_eq_true,
            if_false, hi, hz, ih restricted, List.any_cons, Bool.true_or,
            Option.some_bind, Option.getD_none, List.toFinset_nil,
            Finset.union_empty]
          by_cases ha : (rest.any fun c => stringEqualsWithNormalization c location) = true
          · simp [ha]
          · rw [Bool.not_eq_true] at ha
            simp [ha]
        | some zs =>
          simp only [azScanValues, hc, if_true, hbeq, Bool.false_eq_true,
            if_false, hi, hz, ih (restricted ∪ zs.toFinset), List.any_cons,
            Bool.true_or, Option.some_bind, Option.getD_some]
          by_cases ha : (rest.any fun c => stringEqualsWithNormalization c location) = true
          · simp [ha, Finset.union_assoc, Finset.union_self]
          · rw [Bool.not_eq_true] at ha
            simp [ha]
    · rw [Bool.not_eq_true] at hc
      simp only [azScanValues, hc, Bool.false_eq_true, if_false,
        ih restricted, List.any_cons, Bool.false_or]

theorem azScanRestrictions_eq (location : String)
    (rs : List ResourceSkuRestrictions) (restricted : Finset String)
    (h : rs.all (fun r => r.type == .location || r.restrictionInfo.isSome) = true) :
    azScanRestrictions location restricted rs =
      if rs.any (fun r => r.type == .location && restrictionValuesMatch r location) then
        .nilReturn
      else .cont (restricted ∪ restrictedZonesForLocation location rs) := by
  induction rs generalizing restricted with
  | nil => simp [azScanRestrictions, restrictedZonesForLocation_nil]
  | cons r rest ih =>
    simp only [List.all_cons, Bool.and_eq_true] at h
    obtain ⟨hr, hrest⟩ := h
    have hinfo : r.type = .location ∨ r.restrictionInfo.isSome = true := by
      by_cases ht : r.type = ResourceSkuRestrictionsType.location
      · exact Or.inl ht
      · have hbeq : (r.type == ResourceSkuRestrictionsType.location) = false := by
          cases hx : r.type <;> simp_all
        exact Or.inr (by simpa [hbeq] using hr)
    cases hv : r.values with
    | none =>
      have hm : restrictionValuesMatch r location = false := by
        simp [restrictionValuesMatch, hv]
      simp only [azScanRestrictions, hv]
      rw [ih restricted hrest]
      simp only [List.any_cons, hm, Bool.and_false, Bool.false_or,
        restrictedZonesForLocation_cons, Bool.false_eq_true, if_false]
    | some vs =>
      have hmv : restrictionValuesMatch r location =
          (vs.any fun c => stringEqualsWithNormalization c location) := by
        simp [restrictionValuesMatch, hv]
      simp only [azScanRestrictions, hv,
        azScanValues_eq location r vs restricted hinfo]
      by_cases ha : (vs.any fun c => stringEqualsWithNormalization c location) = true
      · by_cases ht : (r.type == ResourceSkuRestrictionsType.location) = true
        · simp [ha, ht, List.any_cons, hmv]
        · rw [Bool.not_eq_true] at ht
          have hzone : (r.type == ResourceSkuRestrictionsType.zone) = true := by
            cases hx : r.type <;> simp_all
          simp only [ha, if_true, ht, Bool.false_eq_true, if_false]
          rw [ih (restricted ∪
            ((r.restrictionInfo.bind fun info => info.zones).getD []).toFinset) hrest]
          simp only [List.any_cons, hmv, ha, ht, Bool.and_true, Bool.false_or,
            restrictedZonesForLocation_cons, hzone, Bool.true_and, if_true]
          by_cases hb : (rest.any fun r => r.type == ResourceSkuRestrictionsType.location &&
              restrictionValuesMatch r location) = true
          · simp [hb]
          · rw [Bool.not_eq_true] at hb
            simp [hb, Finset.union_assoc]
      · rw [Bool.not_eq_true] at ha
        simp only [ha, Bool.false_eq_true, if_false]
        rw [ih restricted hrest]
        simp only [List.any_cons, hmv, ha, Bool.and_false, Bool.false_or,
          restrictedZonesForLocation_cons, Bool.false_eq_true, if_false]

theorem azScanLocations_eq (restrictions : Option (List ResourceSkuRestrictions))
    (location : String) (lis : List ResourceSkuLocationInfo)
    (h2 : lis.all (fun li => li.location.isSome) = true)
    (h3 : lis.all (fun li => !(locationInfoMatches li location) || li.zones.isSome) = true)
    (h4 : (restrictions.getD []).all
      (fun r => r.type == .location || r.restrictionInfo.isSome) = true)
    (available restricted : Finset String) :
    azScanLocations restrictions location available restricted lis =
      if (lis.any fun li => locationInfoMatches li location) &&
         ((restrictions.getD []).any fun r =>
           r.type == .location && restrictionValuesMatch r location) then
        .nilReturn
      else
        .done (available ∪ zonesForLocation location lis)
          (restricted ∪
            (if lis.any fun li => locationInfoMatches li location then
               restrictedZonesForLocation location (restrictions.getD []) else ∅)) := by
  induction lis generalizing available restricted with
  | nil => simp [azScanLocations, zonesForLocation_nil]
  | cons li rest ih =>
    simp only [List.all_cons, Bool.and_eq_true] at h2 h3
    obtain ⟨h2a, h2b⟩ := h2
    obtain ⟨h3a, h3b⟩ := h3
    obtain ⟨l, hl⟩ := Option.isSome_iff_exists.mp h2a
    have hml : locationInfoMatches li location =
        stringEqualsWithNormalization l location := by
      simp [locationInfoMatches, hl]
    by_cases hm : stringEqualsWithNormalization l location = true
    · have hmatch : locationInfoMatches li location = true := by rw [hml, hm]
      have hzs : li.zones.isSome = true := by
        rw [hmatch] at h3a
        simpa using h3a
      obtain ⟨zs, hz⟩ := Option.isSome_iff_exists.mp hzs
      cases hre : restrictions with
      | none =>
        rw [hre] at ih
        simp only [azScanLocations, hl, hm, if_true, hz]
        rw [ih h2b h3b]
        simp [List.any_cons, hmatch, zonesForLocation_cons, hz,
          restrictedZonesForLocation_nil, Finset.union_assoc]
      | some rs =>
        rw [hre] at ih h4
        simp only [Option.getD_some] at h4
        simp only [azScanLocations, hl, hm, if_true, hz]
        rw [azScanRestrictions_eq location rs restricted h4]
        by_cases hb : (rs.any fun r => r.type == ResourceSkuRestrictionsType.location &&
            restrictionValuesMatch r location) = true
        · simp [hb, hmatch, List.any_cons]
        · rw [Bool.not_eq_true] at hb
          simp only [hb, Bool.false_eq_true, if_false]
          rw [ih h2b h3b]
          simp only [hb, Bool.and_false, Bool.false_eq_true, if_false,
            Option.getD_some, List.any_cons, hmatch, Bool.true_or, if_true,
            Bool.true_and, zonesForLocation_cons]
          by_cases hra : (rest.any fun li => locationInfoMatches li location) = true
          · simp [hra, hz, Finset.union_assoc, Finset.union_self]
          · rw [Bool.not_eq_true] at hra
            simp [hra, hz, Finset.union_assoc]
    · rw [Bool.not_eq_true] at hm
      have hmatch : locationInfoMatches li location = false := by rw [hml, hm]
      simp only [azScanLocations, hl, hm, Bool.false_eq_true, if_false]
      rw [ih h2b h3b]
      simp only [List.any_cons, hmatch, Bool.false_or,
        zonesForLocation_cons, Bool.false_eq_true, if_false]

/-- C5, counterexample: the claim requires the nil-map result whenever any
location-kind restriction lists the queried location, but the source only
scans restrictions from inside a location-info entry that matches the
query; on a SKU whose only location-info entry is eastus and whose
location-kind restriction lists westus, querying westus must return nil
under the claim, while the source returns the empty (non-nil) zone set. -/
theorem c5_counterexample_restriction_without_matching_entry :
    availabilityZonesClaim skuCaseC5 "westus" = .nilMap ∧
    AvailabilityZones skuCaseC5 "westus" = .zones ∅ := by
  decide

/-- C5, amended: for every SKU whose location-info collection is present,
whose entries all carry a location, whose matching entries carry a zones
list, and whose restriction records of zone kind carry restriction info,
AvailabilityZones(location) returns the set of zones listed under the
location-info entries whose location normalized-matches the given location
minus every zone named in a zone-kind restriction whose values include
that location, and returns the nil map exactly when a location-kind
restriction lists that location and some location-info entry also
matches it. -/
theorem c5_availabilityZones_characterization (s : SKU) (location : String)
    (h1 : s.locationInfo.isSome = true)
    (h2 : (s.locationInfo.getD []).all (fun li => li.location.isSome) = true)
    (h3 : (s.locationInfo.getD []).all
      (fun li => !(locationInfoMatches li location) || li.zones.isSome) = true)
    (h4 : (s.restrictions.getD []).all
      (fun r => r.type == .location || r.restrictionInfo.isSome) = true) :
    AvailabilityZones s location = availabilityZonesAmended s location := by
  obtain ⟨lis, hli⟩ := Option.isSome_iff_exists.mp h1
  rw [hli] at h2 h3
  simp only [Option.getD_some] at h2 h3
  unfold AvailabilityZones availabilityZonesAmended
  rw [hli]
  simp only [Option.getD_some]
  rw [azScanLocations_eq s.restrictions location lis h2 h3 h4 ∅ ∅]
  by_cases hA : (lis.any fun li => locationInfoMatches li location) = true
  · by_cases hB : ((s.restrictions.getD []).any fun r =>
        r.type == ResourceSkuRestrictionsType.location &&
          restrictionValuesMatch r location) = true
    · simp [hA, hB]
    · rw [Bool.not_eq_true] at hB
      simp [hA, hB]
  · rw [Bool.not_eq_true] at hA
    have hz0 := zonesForLocation_eq_empty location lis hA
    simp [hA, hz0]

/-- C5, witness: the amended characterization applied to a SKU declaring
East US with zones 1, 2, 3, a zone-kind restriction removing zone 3 at
eastus, and a location-kind restriction naming only westus. -/
theorem c5_availabilityZones_witness :
    AvailabilityZones skuWitnessC5 "eastus" = ZonesResult.zones {"1", "2"} :=
  (c5_availabilityZones_characterization skuWitnessC5 "eastus" (by decide)
    (by decide) (by decide) (by decide)).trans (by decide)

end Skewer
